import Mathlib

/-!
Shallow embedding of the spatiotemporal aggregation engine of the
vt_prediction repository.

Batch path: src/utils/datapreprocessing_utils.py and src/datapreprocessing.py
(section_agg, timewindow_agg, create_np_matrices, rdd_to_np_matrices).
Streaming path: src/realtime_aggregator_1.py (FirstWatermarkAggregator).

Numeric conventions of the embedding: machine doubles are modelled as
rationals; Spark SQL CAST(double AS int) truncates toward zero; Spark SQL
ROUND uses HALF_UP (ties away from zero); Python floor division is Int.fdiv;
a Spark SQL division by a zero literal yields NULL, modelled as Option.none.
-/

/-- Truncation toward zero: the semantics of Spark SQL CAST(double AS int)
and of a numpy float64 value assigned into an int64 array cell. -/
def intTrunc (q : ℚ) : ℤ := if 0 ≤ q then ⌊q⌋ else -⌊-q⌋

/-- Spark SQL ROUND(x) at scale 0: HALF_UP rounding, ties away from zero. -/
def roundHalfUp (q : ℚ) : ℤ := if 0 ≤ q then ⌊q + 1 / 2⌋ else -⌊-q + 1 / 2⌋

/-- Spark SQL ROUND(x, k): HALF_UP rounding at k decimal places. -/
def roundTo (k : ℕ) (q : ℚ) : ℚ := (roundHalfUp (q * 10 ^ k) : ℚ) / 10 ^ k

/-- Python floor division computing the section bucket width
(max_dist // num_section_splits, datapreprocessing_utils.py line 296);
a zero divisor raises ZeroDivisionError, modelled as Except.error. -/
def bucketWidth (maxDist numSectionSplits : ℤ) : Except Unit ℤ :=
  if numSectionSplits = 0 then Except.error ()
  else Except.ok (Int.fdiv maxDist numSectionSplits)

/-- Section id assignment (datapreprocessing_utils.py lines 294-298):
F.round((F.col(Distance) / F.lit(width)).cast(integer)). The cast to
integer happens inside the round, so the value is truncated toward zero
first and the outer ROUND acts on an already-integral value. Division by
a zero width yields NULL (none). -/
def assignSection (w : ℤ) (d : ℚ) : Option ℤ :=
  if w = 0 then none
  else some (roundHalfUp ((intTrunc (d / (w : ℚ)) : ℤ) : ℚ))

/-- Section id as the spec words it: nearest-integer rounding of
distance / bucketWidth. Used only to compare the spec text against
assignSection, which is the translation of the source. -/
def specSectionId (w : ℤ) (d : ℚ) : ℤ := roundHalfUp (d / (w : ℚ))

/-- Clamp applied by the matrix renderer (datapreprocessing_utils.py
lines 210-211): an id equal to num_sections is remapped to
num_sections - 1; nothing else is changed. -/
def clampSection (numSections s : ℤ) : ℤ :=
  if s = numSections then numSections - 1 else s

/- Basic lemmas about the numeric primitives. -/

theorem intTrunc_of_nonneg {q : ℚ} (h : 0 ≤ q) : intTrunc q = ⌊q⌋ := by
  simp [intTrunc, h]

theorem roundHalfUp_intCast (z : ℤ) : roundHalfUp (z : ℚ) = z := by
  unfold roundHalfUp
  rcases le_or_lt 0 (z : ℚ) with h | h
  · rw [if_pos h, Int.floor_int_add]
    norm_num
  · rw [if_neg (not_le.mpr h)]
    rw [show (-(z : ℚ) + 1 / 2) = ((-z : ℤ) : ℚ) + 1 / 2 by push_cast; ring]
    rw [Int.floor_int_add]
    norm_num

/-- For a nonnegative distance and a nonzero width the assigned section id
is exactly the floor of the quotient. -/
theorem assignSection_eq_floor {w : ℤ} (d : ℚ) (hw : w ≠ 0) (hd : 0 ≤ d)
    (hwpos : 0 < w) : assignSection w d = some ⌊d / (w : ℚ)⌋ := by
  unfold assignSection
  rw [if_neg hw]
  have hq : (0 : ℚ) ≤ d / (w : ℚ) :=
    div_nonneg hd (by exact_mod_cast hwpos.le)
  rw [intTrunc_of_nonneg hq, roundHalfUp_intCast]

/-- CLAIM C3 (corrected part). Counterexample to the claim as stated: with
maxDistance = 1000 and numSections = 10 the bucket width is 100, and the
distance 150 (quotient 1.5, fractional part 0.5) is assigned section 1 by
the source, not the next-higher section 2 that nearest-integer rounding
would give: the integer cast in the source truncates before the round. -/
theorem section_round_counterexample :
    bucketWidth 1000 10 = Except.ok 100 ∧
    assignSection 100 150 = some 1 ∧
    specSectionId 100 150 = 2 := by
  refine ⟨rfl, ?_, ?_⟩
  · norm_num [assignSection, intTrunc, roundHalfUp]
  · norm_num [specSectionId, roundHalfUp]

/-- CLAIM C3 (amended). For every configuration with numSections > 0 and a
positive resulting bucket width, the width is floor(maxDistance/numSections)
and a nonnegative distance d is assigned sectionId = floor(d / bucketWidth):
the integer cast truncates the quotient before the no-op outer round, so the
id is the floor, not the nearest integer, of the quotient. -/
theorem section_assignment_floor (m n w : ℤ) (d : ℚ) (hn : 0 < n)
    (hbw : bucketWidth m n = Except.ok w) (hwpos : 0 < w) (hd : 0 ≤ d) :
    w = ⌊(m : ℚ) / (n : ℚ)⌋ ∧ assignSection w d = some ⌊d / (w : ℚ)⌋ := by
  constructor
  · have hne : n ≠ 0 := hn.ne'
    unfold bucketWidth at hbw
    rw [if_neg hne] at hbw
    have hw : w = Int.fdiv m n := by
      cases hbw
      rfl
    rw [hw, Int.fdiv_eq_ediv m hn.le]
    have hcast : ((n.toNat : ℕ) : ℚ) = (n : ℚ) := by
      exact_mod_cast congrArg (fun z : ℤ => (z : ℚ)) (Int.toNat_of_nonneg hn.le)
    have key := Rat.floor_intCast_div_natCast m n.toNat
    rw [hcast, Int.toNat_of_nonneg hn.le] at key
    exact key.symm
  · exact assignSection_eq_floor d hwpos.ne' hd hwpos

/-- Witness for section_assignment_floor: maxDistance 1000, numSections 10,
distance 150 gives width 100 and section floor(1.5) = 1. -/
theorem section_assignment_floor_witness :
    (100 : ℤ) = ⌊(1000 : ℚ) / (10 : ℚ)⌋ ∧
    assignSection 100 150 = some ⌊(150 : ℚ) / ((100 : ℤ) : ℚ)⌋ :=
  section_assignment_floor 1000 10 100 150 (by decide) rfl (by decide)
    (by norm_num)

/-- CLAIM C4 (corrected part). Counterexample to the claim as stated: the
bound 0 <= sectionId < numSections does not hold for every distance d >= 0
and width w > 0. With width 100 and numSections 10 (the configuration of the
claim), the distance 1100 gets raw id 11; the clamp only remaps an id equal
to numSections, so 11 survives and violates 11 < 10. -/
theorem section_range_counterexample :
    assignSection 100 1100 = some 11 ∧
    clampSection 10 11 = 11 ∧
    ¬ (11 : ℤ) < 10 := by
  refine ⟨?_, by decide, by decide⟩
  norm_num [assignSection, intTrunc, roundHalfUp]

/-- CLAIM C4 (amended). For 0 <= d < (numSections + 1) * w with w > 0 and
numSections > 0, the clamped section id lies in [0, numSections); in
particular the raw id equal to numSections (reached exactly on the last
partial bucket, e.g. d = maxDistance = 1000 with numSections = 10 and
width 100) is remapped to numSections - 1. -/
theorem section_clamp_in_range (n w : ℤ) (d : ℚ) (hn : 0 < n) (hw : 0 < w)
    (hd : 0 ≤ d) (hub : d < (((n + 1) * w : ℤ) : ℚ)) :
    ∃ s, assignSection w d = some s ∧
      0 ≤ clampSection n s ∧ clampSection n s < n := by
  refine ⟨⌊d / (w : ℚ)⌋, assignSection_eq_floor d hw.ne' hd hw, ?_, ?_⟩
  · have h0 : 0 ≤ ⌊d / (w : ℚ)⌋ :=
      Int.floor_nonneg.mpr (div_nonneg hd (by exact_mod_cast hw.le))
    unfold clampSection
    split
    · omega
    · exact h0
  · have hlt : ⌊d / (w : ℚ)⌋ < n + 1 := by
      rw [Int.floor_lt]
      rw [div_lt_iff₀ (by exact_mod_cast hw)]
      calc d < (((n + 1) * w : ℤ) : ℚ) := hub
        _ = ((n + 1 : ℤ) : ℚ) * ((w : ℤ) : ℚ) := by push_cast; ring
    unfold clampSection
    split
    · omega
    · omega

/-- Witness for section_clamp_in_range: the scenario of the claim, distance
1000 = maxDistance with numSections 10 and width 100: the raw id 10 exists
and its clamped value is 9, inside [0, 10). -/
theorem section_clamp_in_range_witness :
    ∃ s, assignSection 100 1000 = some s ∧
      0 ≤ clampSection 10 s ∧ clampSection 10 s < 10 :=
  section_clamp_in_range 10 100 1000 (by decide) (by decide) (by decide)
    (by norm_num)

/-! Fine aggregation (FineAggregator): section_agg in
datapreprocessing_utils.py lines 282-306. A trajectory point carries the
raw event time (ElapsedTime), lane id, velocity, acceleration and derived
distance; points are grouped by (ElapsedTime, Section_ID, Lane_ID) and each
group is reduced to the rounded mean velocity, rounded mean acceleration
and the group size. Spark computes each avg by accumulating a partial
(sum, count) pair per partition and merging, so the embedding folds an
explicit sum-and-count accumulator over the group. -/

/-- One trajectory point as consumed by section_agg. -/
structure TrajPoint where
  elapsedTime : ℤ
  laneId : ℤ
  vVel : ℚ
  vAcc : ℚ
  distance : ℚ
deriving DecidableEq

/-- Grouping key of the fine aggregation: (ElapsedTime, Section_ID, Lane_ID).
The section id is an Option because a zero bucket width makes the Spark
division yield NULL, and Spark groups NULL keys like any other value. -/
structure FineKey where
  elapsedTime : ℤ
  sectionId : Option ℤ
  laneId : ℤ
deriving DecidableEq

/-- Key of a point under a given bucket width. -/
def fineKeyOf (w : ℤ) (p : TrajPoint) : FineKey :=
  ⟨p.elapsedTime, assignSection w p.distance, p.laneId⟩

/-- The group of points sharing key k. -/
def fineGroup (w : ℤ) (pts : List TrajPoint) (k : FineKey) : List TrajPoint :=
  pts.filter (fun p => fineKeyOf w p = k)

/-- Partial aggregation state: velocity sum, acceleration sum, row count. -/
structure SumCount where
  velSum : ℚ
  accSum : ℚ
  cnt : ℕ
deriving DecidableEq

/-- Fold one point into the accumulator. -/
def foldPoint (a : SumCount) (p : TrajPoint) : SumCount :=
  ⟨a.velSum + p.vVel, a.accSum + p.vAcc, a.cnt + 1⟩

/-- Merge two partial accumulators (how Spark combines per-partition
partial aggregates). -/
def mergeSC (a b : SumCount) : SumCount :=
  ⟨a.velSum + b.velSum, a.accSum + b.accSum, a.cnt + b.cnt⟩

/-- Accumulate a whole list of points. -/
def accOf (l : List TrajPoint) : SumCount := l.foldl foldPoint ⟨0, 0, 0⟩

/-- Aggregated output row: ROUND(avg(v_Vel), 1), ROUND(avg(v_Acc), 2),
count. -/
structure StatRecord where
  avgVel : ℚ
  avgAcc : ℚ
  count : ℕ
deriving DecidableEq

/-- Finalize an accumulator into a result row; an empty group produces no
row (the key is absent from the grouped result). -/
def finalizeFine (a : SumCount) : Option StatRecord :=
  if a.cnt = 0 then none
  else some ⟨roundTo 1 (a.velSum / (a.cnt : ℚ)), roundTo 2 (a.accSum / (a.cnt : ℚ)), a.cnt⟩

/-- The fine aggregation result row at key k (section_agg lines 293-306):
assign section ids, group by (ElapsedTime, Section_ID, Lane_ID) and reduce
the group with the sum-and-count accumulator. An invalid split count makes
the Python width computation raise before any Spark work. -/
def section_agg (maxDist numSectionSplits : ℤ) (pts : List TrajPoint)
    (k : FineKey) : Except Unit (Option StatRecord) :=
  match bucketWidth maxDist numSectionSplits with
  | Except.error e => Except.error e
  | Except.ok w => Except.ok (finalizeFine (accOf (fineGroup w pts k)))

theorem foldPoint_closed (a : SumCount) (l : List TrajPoint) :
    List.foldl foldPoint a l =
      ⟨a.velSum + (l.map TrajPoint.vVel).sum,
       a.accSum + (l.map TrajPoint.vAcc).sum, a.cnt + l.length⟩ := by
  induction l generalizing a with
  | nil => simp
  | cons p rest ih =>
    rw [List.foldl_cons, ih]
    simp only [foldPoint, List.map_cons, List.sum_cons, List.length_cons,
      SumCount.mk.injEq]
    refine ⟨by ring, by ring, by omega⟩

theorem accOf_closed_form (l : List TrajPoint) :
    accOf l = ⟨(l.map TrajPoint.vVel).sum, (l.map TrajPoint.vAcc).sum, l.length⟩ := by
  rw [accOf, foldPoint_closed]
  simp

theorem accOf_append (l m : List TrajPoint) :
    accOf (l ++ m) = mergeSC (accOf l) (accOf m) := by
  rw [accOf_closed_form, accOf_closed_form, accOf_closed_form]
  simp [mergeSC]

/-- CLAIM C7. For every bucket width, point list and key whose group is
nonempty, the fine aggregation emits a row whose avgVelocity is the
arithmetic mean of the group velocities rounded to 1 decimal, whose
avgAcceleration is the mean of the group accelerations rounded to 2
decimals, and whose count is the number of points in the group. -/
theorem fine_agg_mean (m n w : ℤ) (pts : List TrajPoint) (k : FineKey)
    (hbw : bucketWidth m n = Except.ok w)
    (hne : fineGroup w pts k ≠ []) :
    section_agg m n pts k = Except.ok (some
      ⟨roundTo 1 (((fineGroup w pts k).map TrajPoint.vVel).sum / ((fineGroup w pts k).length : ℚ)),
       roundTo 2 (((fineGroup w pts k).map TrajPoint.vAcc).sum / ((fineGroup w pts k).length : ℚ)),
       (fineGroup w pts k).length⟩) := by
  unfold section_agg
  rw [hbw]
  show Except.ok (finalizeFine (accOf (fineGroup w pts k))) = _
  rw [accOf_closed_form]
  unfold finalizeFine
  have hlen : (fineGroup w pts k).length ≠ 0 := by
    simpa [List.length_eq_zero] using hne
  simp only [hlen, if_false]

/-- Witness for fine_agg_mean: three points in lane 7 at distance 0 and the
same event time, velocities 50, 55 and 60, give avgVelocity 55 and count 3
(maxDistance 1000, numSections 10, so width 100 and section 0). -/
theorem fine_agg_mean_witness :
    section_agg 1000 10
      [⟨0, 7, 50, 0, 0⟩, ⟨0, 7, 55, 0, 0⟩, ⟨0, 7, 60, 0, 0⟩]
      ⟨0, some 0, 7⟩ = Except.ok (some ⟨55, 0, 3⟩) := by
  have hsec : assignSection 100 0 = some 0 := by
    norm_num [assignSection, intTrunc, roundHalfUp]
  have hgrp : fineGroup 100
      [⟨0, 7, 50, 0, 0⟩, ⟨0, 7, 55, 0, 0⟩, ⟨0, 7, 60, 0, 0⟩]
      ⟨0, some 0, 7⟩ =
      [⟨0, 7, 50, 0, 0⟩, ⟨0, 7, 55, 0, 0⟩, ⟨0, 7, 60, 0, 0⟩] := by
    simp [fineGroup, fineKeyOf, hsec, List.filter]
  have h := fine_agg_mean 1000 10 100
      [⟨0, 7, 50, 0, 0⟩, ⟨0, 7, 55, 0, 0⟩, ⟨0, 7, 60, 0, 0⟩]
      ⟨0, some 0, 7⟩ rfl (by rw [hgrp]; simp)
  rw [h, hgrp]
  norm_num [roundTo, roundHalfUp]

/-- CLAIM C8. The fine reduction is order-independent: merging the partial
sum-and-count accumulators of any partition of the group, in any order and
association, equals accumulating the whole group; the merge is commutative
and associative; and permuting the group leaves the finalized (rounded)
statistics exactly unchanged. -/
theorem fine_agg_order_independent :
    (∀ parts : List (List TrajPoint),
        (parts.map accOf).foldl mergeSC ⟨0, 0, 0⟩ = accOf parts.flatten) ∧
    (∀ a b : SumCount, mergeSC a b = mergeSC b a) ∧
    (∀ a b c : SumCount, mergeSC (mergeSC a b) c = mergeSC a (mergeSC b c)) ∧
    (∀ l l' : List TrajPoint, l.Perm l' →
        finalizeFine (accOf l) = finalizeFine (accOf l')) := by
  have hcomm : ∀ a b : SumCount, mergeSC a b = mergeSC b a := by
    intro a b
    simp [mergeSC]
    exact ⟨add_comm _ _, add_comm _ _, Nat.add_comm _ _⟩
  have hassoc : ∀ a b c : SumCount,
      mergeSC (mergeSC a b) c = mergeSC a (mergeSC b c) := by
    intro a b c
    simp [mergeSC]
    exact ⟨add_assoc _ _ _, add_assoc _ _ _, Nat.add_assoc _ _ _⟩
  have hzero : ∀ a : SumCount, mergeSC ⟨0, 0, 0⟩ a = a := by
    intro a
    simp [mergeSC]
  refine ⟨?_, hcomm, hassoc, ?_⟩
  · intro parts
    induction parts with
    | nil => rfl
    | cons p rest ih =>
      have step : ∀ (a : SumCount) (l : List SumCount),
          List.foldl mergeSC a l = mergeSC a (List.foldl mergeSC ⟨0, 0, 0⟩ l) := by
        intro a l
        induction l generalizing a with
        | nil => simp [mergeSC]
        | cons x xs ihl =>
          rw [List.foldl_cons, ihl (mergeSC a x), List.foldl_cons,
            ihl (mergeSC ⟨0, 0, 0⟩ x), hzero, hassoc]
      rw [List.map_cons, List.foldl_cons, hzero, step, ih]
      rw [show (p :: rest).flatten = p ++ rest.flatten from rfl, accOf_append]
  · intro l l' hperm
    rw [accOf_closed_form, accOf_closed_form,
      (hperm.map TrajPoint.vVel).sum_eq, (hperm.map TrajPoint.vAcc).sum_eq,
      hperm.length_eq]

/-- Witness for fine_agg_order_independent: a two-block partition of three
concrete points merges to the whole-list accumulator, and the transposition
of two points leaves the finalized statistics unchanged. -/
theorem fine_agg_order_independent_witness :
    ([[⟨0, 1, 50, 0, 0⟩], [⟨0, 1, 60, 0, 0⟩, ⟨0, 1, 55, 0, 0⟩]].map accOf).foldl
        mergeSC ⟨0, 0, 0⟩ =
      accOf ([[⟨0, 1, 50, 0, 0⟩], [⟨0, 1, 60, 0, 0⟩, ⟨0, 1, 55, 0, 0⟩]] : List (List TrajPoint)).flatten ∧
    finalizeFine (accOf [⟨0, 1, 50, 0, 0⟩, ⟨0, 1, 60, 0, 0⟩]) =
      finalizeFine (accOf [⟨0, 1, 60, 0, 0⟩, ⟨0, 1, 50, 0, 0⟩]) :=
  ⟨fine_agg_order_independent.1 _,
   fine_agg_order_independent.2.2.2 _ _ (List.Perm.swap _ _ _)⟩

/-! Batch window aggregation (WindowAggregator): timewindow_agg in
datapreprocessing_utils.py lines 308-333 (the variant in
datapreprocessing.py lines 116-141 differs only in the time filter, which
lacks the 45 ms trailing guard). Fine StatRecords keyed by raw event time
are filtered to the batch range, given a TimeWindow id, regrouped by
(TimeWindow, Section_ID, Lane_ID) and re-reduced: ROUND(AVG(avg(v_Vel)), 1),
ROUND(AVG(avg(v_Acc)), 2), COUNT(*). -/

/-- A fine-aggregation output row as consumed by timewindow_agg. -/
structure FineRecord where
  elapsedTime : ℤ
  sectionId : Option ℤ
  laneId : ℤ
  avgVel : ℚ
  avgAcc : ℚ
  count : ℕ
deriving DecidableEq

/-- Batch admission filter (timewindow_agg line 321): ElapsedTime in
[start*1000, end*1000 - 45). -/
def admittedBatch (start stop e : ℤ) : Bool :=
  decide (start * 1000 ≤ e) && decide (e < stop * 1000 - 45)

/-- TimeWindow id assignment (timewindow_agg lines 322-324):
F.round((ElapsedTime / F.lit(timewindow * 1000)).cast(integer)), the same
cast-then-round shape as the section id with width timewindow * 1000. -/
def assignWindow (timewindow e : ℤ) : Option ℤ :=
  assignSection (timewindow * 1000) (e : ℚ)

/-- Window id as the spec words it: nearest-integer rounding of
elapsedTimeMs / (windowSize * 1000). Used only to compare the spec text
against assignWindow, which is the translation of the source. -/
def specWindowId (timewindow e : ℤ) : ℤ :=
  roundHalfUp ((e : ℚ) / ((timewindow * 1000 : ℤ) : ℚ))

/-- Coarse grouping key: (TimeWindow, Section_ID, Lane_ID). -/
structure WindowKey where
  windowId : Option ℤ
  sectionId : Option ℤ
  laneId : ℤ
deriving DecidableEq

/-- Key of a fine record under a given window size. -/
def windowKeyOf (timewindow : ℤ) (r : FineRecord) : WindowKey :=
  ⟨assignWindow timewindow r.elapsedTime, r.sectionId, r.laneId⟩

/-- The admitted fine records sharing coarse key k. -/
def windowGroup (start stop timewindow : ℤ) (rs : List FineRecord)
    (k : WindowKey) : List FineRecord :=
  (rs.filter (fun r => admittedBatch start stop r.elapsedTime)).filter
    (fun r => windowKeyOf timewindow r = k)

/-- Fold one fine record into the coarse accumulator: AVG over the
per-fine-bucket averages accumulates their plain sum and the row count;
COUNT(*) is the same row count. The per-fine counts are not read. -/
def foldFine (a : SumCount) (r : FineRecord) : SumCount :=
  ⟨a.velSum + r.avgVel, a.accSum + r.avgAcc, a.cnt + 1⟩

/-- The coarse aggregation result row at key k (timewindow_agg
lines 320-330). -/
def timewindow_agg (start stop timewindow : ℤ) (rs : List FineRecord)
    (k : WindowKey) : Option StatRecord :=
  finalizeFine ((windowGroup start stop timewindow rs k).foldl foldFine ⟨0, 0, 0⟩)

/-- Density as the spec words it for the coarse window: the sum of the
counts of the fine buckets in the group. Used only to compare the spec text
against timewindow_agg, which is the translation of the source. -/
def specWindowDensity (grp : List FineRecord) : ℕ :=
  (grp.map FineRecord.count).sum

theorem foldFine_closed (a : SumCount) (l : List FineRecord) :
    List.foldl foldFine a l =
      ⟨a.velSum + (l.map FineRecord.avgVel).sum,
       a.accSum + (l.map FineRecord.avgAcc).sum, a.cnt + l.length⟩ := by
  induction l generalizing a with
  | nil => simp
  | cons r rest ih =>
    rw [List.foldl_cons, ih]
    simp only [foldFine, List.map_cons, List.sum_cons, List.length_cons,
      SumCount.mk.injEq]
    refine ⟨by ring, by ring, by omega⟩

/-- CLAIM C1 (corrected part). Counterexample to the claim as stated: two
fine buckets in the same (window, section, lane) group carrying counts 3
and 5 produce a coarse density of 2 (COUNT(*), the number of fine buckets),
not the sum 8 of the underlying counts that the claim asserts. -/
theorem window_density_counterexample :
    timewindow_agg 0 60 30
      [⟨1000, some 0, 1, 55, 0, 3⟩, ⟨2000, some 0, 1, 55, 0, 5⟩]
      ⟨some 0, some 0, 1⟩ = some ⟨55, 0, 2⟩ ∧
    specWindowDensity (windowGroup 0 60 30
      [⟨1000, some 0, 1, 55, 0, 3⟩, ⟨2000, some 0, 1, 55, 0, 5⟩]
      ⟨some 0, some 0, 1⟩) = 8 ∧
    (2 : ℕ) ≠ 8 := by
  have hw1 : assignWindow 30 1000 = some 0 := by
    norm_num [assignWindow, assignSection, intTrunc, roundHalfUp]
  have hw2 : assignWindow 30 2000 = some 0 := by
    norm_num [assignWindow, assignSection, intTrunc, roundHalfUp]
  have hgrp : windowGroup 0 60 30
      [⟨1000, some 0, 1, 55, 0, 3⟩, ⟨2000, some 0, 1, 55, 0, 5⟩]
      ⟨some 0, some 0, 1⟩ =
      [⟨1000, some 0, 1, 55, 0, 3⟩, ⟨2000, some 0, 1, 55, 0, 5⟩] := by
    simp [windowGroup, windowKeyOf, admittedBatch, hw1, hw2, List.filter]
  refine ⟨?_, by rw [hgrp]; rfl, by decide⟩
  rw [timewindow_agg, hgrp]
  norm_num [foldFine, finalizeFine, roundTo, roundHalfUp]

/-- CLAIM C1 (amended). For every nonempty (window, section, lane) group of
admitted fine records, the coarse row has avgVelocity equal to the
unweighted arithmetic mean of the per-fine-bucket average velocities
rounded to 1 decimal, avgAcceleration equal to the unweighted mean of the
per-fine-bucket average accelerations rounded to 2 decimals, and a density
count equal to the NUMBER of fine buckets in the group (COUNT(*)), not the
sum of their counts. -/
theorem window_agg_group_stats (start stop tw : ℤ) (rs : List FineRecord)
    (k : WindowKey) (hne : windowGroup start stop tw rs k ≠ []) :
    timewindow_agg start stop tw rs k = some
      ⟨roundTo 1 (((windowGroup start stop tw rs k).map FineRecord.avgVel).sum /
          ((windowGroup start stop tw rs k).length : ℚ)),
       roundTo 2 (((windowGroup start stop tw rs k).map FineRecord.avgAcc).sum /
          ((windowGroup start stop tw rs k).length : ℚ)),
       (windowGroup start stop tw rs k).length⟩ := by
  have hlen : (windowGroup start stop tw rs k).length ≠ 0 := by
    simpa [List.length_eq_zero] using hne
  rw [timewindow_agg, foldFine_closed]
  simp only [zero_add]
  unfold finalizeFine
  simp only [hlen, if_false]

/-- Witness for window_agg_group_stats: a group of two fine buckets with
average velocities 50 and 60 yields the coarse row (55, 0, 2). -/
theorem window_agg_group_stats_witness :
    timewindow_agg 0 60 30
      [⟨1000, some 0, 2, 50, 0, 4⟩, ⟨2000, some 0, 2, 60, 0, 6⟩]
      ⟨some 0, some 0, 2⟩ = some ⟨55, 0, 2⟩ := by
  have hw1 : assignWindow 30 1000 = some 0 := by
    norm_num [assignWindow, assignSection, intTrunc, roundHalfUp]
  have hw2 : assignWindow 30 2000 = some 0 := by
    norm_num [assignWindow, assignSection, intTrunc, roundHalfUp]
  have hgrp : windowGroup 0 60 30
      [⟨1000, some 0, 2, 50, 0, 4⟩, ⟨2000, some 0, 2, 60, 0, 6⟩]
      ⟨some 0, some 0, 2⟩ =
      [⟨1000, some 0, 2, 50, 0, 4⟩, ⟨2000, some 0, 2, 60, 0, 6⟩] := by
    simp [windowGroup, windowKeyOf, admittedBatch, hw1, hw2, List.filter]
  have h := window_agg_group_stats 0 60 30
      [⟨1000, some 0, 2, 50, 0, 4⟩, ⟨2000, some 0, 2, 60, 0, 6⟩]
      ⟨some 0, some 0, 2⟩ (by rw [hgrp]; simp)
  rw [h, hgrp]
  norm_num [roundTo, roundHalfUp]

/-- CLAIM C5 (corrected part). Counterexample to the claim as stated: the
admitted record at ElapsedTime 45000 ms with windowSize 30 s has quotient
1.5; the source assigns window 1 (the integer cast truncates before the
no-op round), while the claim formula round(elapsedTimeMs/(windowSize*1000))
gives 2, so the two formulas of the claim do not agree and the assigned id
is not the rounded quotient. -/
theorem window_round_counterexample :
    admittedBatch 0 60 45000 = true ∧
    assignWindow 30 45000 = some 1 ∧
    specWindowId 30 45000 = 2 := by
  refine ⟨by decide, ?_, ?_⟩
  · norm_num [assignWindow, assignSection, intTrunc, roundHalfUp]
  · norm_num [specWindowId, roundHalfUp]

/-- CLAIM C5 (amended). For every admitted record (with a nonnegative batch
start and a positive window size) the assigned windowId equals
floor(elapsedTimeMs / windowSizeMs), the data-model formula; the rounding
written in the spec is inert because the source casts to integer first. -/
theorem window_assignment_floor (start stop tw e : ℤ) (htw : 0 < tw)
    (hs : 0 ≤ start) (hadm : admittedBatch start stop e = true) :
    assignWindow tw e = some ⌊(e : ℚ) / ((tw * 1000 : ℤ) : ℚ)⌋ := by
  have he : (0 : ℤ) ≤ e := by
    have h1 : decide (start * 1000 ≤ e) = true := by
      have := hadm
      unfold admittedBatch at this
      exact (Bool.and_eq_true_iff.mp this).1
    have h2 : start * 1000 ≤ e := of_decide_eq_true h1
    nlinarith
  have hwpos : (0 : ℤ) < tw * 1000 := by positivity
  exact assignSection_eq_floor (e : ℚ) hwpos.ne' (by exact_mod_cast he) hwpos

/-- Witness for window_assignment_floor: the admitted record at 45000 ms
with windowSize 30 s is assigned floor(1.5) = 1. -/
theorem window_assignment_floor_witness :
    assignWindow 30 45000 = some ⌊(45000 : ℤ) / ((30 * 1000 : ℤ) : ℚ)⌋ :=
  window_assignment_floor 0 60 30 45000 (by decide) (by decide) (by decide)

/-! Matrix rendering (MatrixRenderer): create_np_matrices in
datapreprocessing_utils.py lines 183-217 (rdd_to_np_matrices lines 232-277
is the same loop with an identity scaling hook). The velocity matrix is
allocated with np.full(..., 60), whose dtype is int64 because the fill
value is a Python int, so every float average assigned into it is cast to
int64, truncating toward zero; the density and acceleration matrices are
np.zeros, i.e. float64. The embedding models each matrix as a total
function on integer index pairs; numpy shape bounds and negative-index
wrapping are outside the claims and are not modelled. -/

/-- An aggregated row as consumed by the renderer. -/
structure MatRow where
  laneId : ℤ
  sectionId : ℤ
  avgVel : ℚ
  count : ℕ
  avgAcc : ℚ
deriving DecidableEq

/-- The three output grids. The velocity grid holds int64 values. -/
structure Matrices where
  vel : ℤ → ℤ → ℤ
  dens : ℤ → ℤ → ℚ
  acc : ℤ → ℤ → ℚ

/-- Initial fill: velocity 60 everywhere, density and acceleration 0. -/
def initMatrices : Matrices :=
  ⟨fun _ _ => 60, fun _ _ => 0, fun _ _ => 0⟩

/-- Pointwise array assignment. -/
def updCell {α : Type} (f : ℤ → ℤ → α) (i j : ℤ) (v : α) : ℤ → ℤ → α :=
  fun x y => if x = i ∧ y = j then v else f x y

/-- One iteration of the fill loop (lines 198-215): skip the row when
with_ramp is false and its lane is 6; otherwise clamp the section id and
assign the three values at row laneId - 1, column clampSection. -/
def renderStep (numSections : ℤ) (withRamp : Bool) (M : Matrices)
    (r : MatRow) : Matrices :=
  if withRamp = false ∧ r.laneId = 6 then M
  else
    ⟨updCell M.vel (r.laneId - 1) (clampSection numSections r.sectionId)
        (intTrunc r.avgVel),
     updCell M.dens (r.laneId - 1) (clampSection numSections r.sectionId)
        (r.count : ℚ),
     updCell M.acc (r.laneId - 1) (clampSection numSections r.sectionId)
        r.avgAcc⟩

/-- The renderer: fold the fill loop over the collected rows in order. -/
def create_np_matrices (rows : List MatRow) (numSections : ℤ)
    (withRamp : Bool) : Matrices :=
  rows.foldl (renderStep numSections withRamp) initMatrices

/-- A row writes cell (i, j): it is not skipped, its lane row is i and its
clamped section column is j. -/
def hitsCell (numSections : ℤ) (withRamp : Bool) (r : MatRow)
    (i j : ℤ) : Prop :=
  ¬ (withRamp = false ∧ r.laneId = 6) ∧
    r.laneId - 1 = i ∧ clampSection numSections r.sectionId = j

instance (numSections : ℤ) (withRamp : Bool) (r : MatRow) (i j : ℤ) :
    Decidable (hitsCell numSections withRamp r i j) := by
  unfold hitsCell
  infer_instance

theorem renderStep_other (nS : ℤ) (wr : Bool) (M : Matrices) (r : MatRow)
    (i j : ℤ) (h : ¬ hitsCell nS wr r i j) :
    (renderStep nS wr M r).vel i j = M.vel i j ∧
    (renderStep nS wr M r).dens i j = M.dens i j ∧
    (renderStep nS wr M r).acc i j = M.acc i j := by
  unfold renderStep
  by_cases hskip : wr = false ∧ r.laneId = 6
  · rw [if_pos hskip]
    exact ⟨rfl, rfl, rfl⟩
  · rw [if_neg hskip]
    have hne : ¬ (i = r.laneId - 1 ∧ j = clampSection nS r.sectionId) := by
      intro hc
      exact h ⟨hskip, hc.1.symm, hc.2.symm⟩
    simp [updCell, hne]

theorem renderStep_write (nS : ℤ) (wr : Bool) (M : Matrices) (r : MatRow)
    (h : ¬ (wr = false ∧ r.laneId = 6)) :
    (renderStep nS wr M r).vel (r.laneId - 1) (clampSection nS r.sectionId) =
        intTrunc r.avgVel ∧
    (renderStep nS wr M r).dens (r.laneId - 1) (clampSection nS r.sectionId) =
        (r.count : ℚ) ∧
    (renderStep nS wr M r).acc (r.laneId - 1) (clampSection nS r.sectionId) =
        r.avgAcc := by
  unfold renderStep
  rw [if_neg h]
  simp [updCell]

theorem renderStep_untouched (nS : ℤ) (wr : Bool) (post : List MatRow)
    (i j : ℤ) :
    ∀ M : Matrices, (∀ r ∈ post, ¬ hitsCell nS wr r i j) →
      (post.foldl (renderStep nS wr) M).vel i j = M.vel i j ∧
      (post.foldl (renderStep nS wr) M).dens i j = M.dens i j ∧
      (post.foldl (renderStep nS wr) M).acc i j = M.acc i j := by
  induction post with
  | nil =>
    intro M _
    exact ⟨rfl, rfl, rfl⟩
  | cons r rest ih =>
    intro M h
    rw [List.foldl_cons]
    have hr : ¬ hitsCell nS wr r i j := h r (List.mem_cons_self r rest)
    have hrest : ∀ x ∈ rest, ¬ hitsCell nS wr x i j := fun x hx =>
      h x (List.mem_cons_of_mem r hx)
    have hstep := renderStep_other nS wr M r i j hr
    have hfold := ih (renderStep nS wr M r) hrest
    exact ⟨hfold.1.trans hstep.1, hfold.2.1.trans hstep.2.1,
      hfold.2.2.trans hstep.2.2⟩

/-- CLAIM C6 (corrected part). Counterexample to the claim as stated: a
record with average velocity 55.5 in lane 1, section 0, is rendered with
velocity cell value 55, not 55.5: the velocity matrix is an int64 numpy
array (np.full with the integer fill 60), so the assigned float is
truncated toward zero. The claim says the renderer writes avgVelocity
itself into the cell. -/
theorem matrix_vel_truncation_counterexample :
    (create_np_matrices [⟨1, 0, 111 / 2, 5, 1⟩] 10 true).vel 0 0 = 55 ∧
    (((create_np_matrices [⟨1, 0, 111 / 2, 5, 1⟩] 10 true).vel 0 0 : ℤ) : ℚ) ≠
      111 / 2 := by
  have hcell : (create_np_matrices [⟨1, 0, 111 / 2, 5, 1⟩] 10 true).vel 0 0 =
      intTrunc (111 / 2) := by
    show (renderStep 10 true initMatrices ⟨1, 0, 111 / 2, 5, 1⟩).vel 0 0 =
      intTrunc (111 / 2)
    have h := renderStep_write 10 true initMatrices ⟨1, 0, 111 / 2, 5, 1⟩
      (by simp)
    simpa [clampSection] using h.1
  have hval : intTrunc (111 / 2 : ℚ) = 55 := by
    norm_num [intTrunc]
  refine ⟨hcell.trans hval, ?_⟩
  rw [hcell, hval]
  norm_num

/-- CLAIM C6 (amended). The renderer initializes every velocity cell to 60
and every density and acceleration cell to 0; a record is skipped entirely
when withRamp is false and its lane is 6 (its cell keeps the default, so
density stays 0 for such a record even with count 5); otherwise the section
id equal to numSections is clamped to numSections - 1 and the record writes
its average velocity truncated to an int64 integer, its count, and its
average acceleration at row laneId - 1 of the respective matrices. -/
theorem matrix_render_spec (nS : ℤ) (wr : Bool) :
    (∀ i j : ℤ, (create_np_matrices [] nS wr).vel i j = 60 ∧
      (create_np_matrices [] nS wr).dens i j = 0 ∧
      (create_np_matrices [] nS wr).acc i j = 0) ∧
    (∀ (rows : List MatRow) (r : MatRow), wr = false → r.laneId = 6 →
      create_np_matrices (rows ++ [r]) nS wr = create_np_matrices rows nS wr) ∧
    (∀ (rows : List MatRow) (r : MatRow), ¬ (wr = false ∧ r.laneId = 6) →
      (create_np_matrices (rows ++ [r]) nS wr).vel (r.laneId - 1)
          (clampSection nS r.sectionId) = intTrunc r.avgVel ∧
      (create_np_matrices (rows ++ [r]) nS wr).dens (r.laneId - 1)
          (clampSection nS r.sectionId) = (r.count : ℚ) ∧
      (create_np_matrices (rows ++ [r]) nS wr).acc (r.laneId - 1)
          (clampSection nS r.sectionId) = r.avgAcc) := by
  refine ⟨fun i j => ⟨rfl, rfl, rfl⟩, ?_, ?_⟩
  · intro rows r hwr hlane
    unfold create_np_matrices
    rw [List.foldl_append, List.foldl_cons, List.foldl_nil]
    unfold renderStep
    rw [if_pos ⟨hwr, hlane⟩]
  · intro rows r hskip
    unfold create_np_matrices
    rw [List.foldl_append, List.foldl_cons, List.foldl_nil]
    exact renderStep_write nS wr _ r hskip

/-- Witness for matrix_render_spec: with withRamp false, appending a lane-6
record with count 5 leaves the matrices unchanged, so its density cell
keeps the initial value 0; and a lane-1 record writes its values. -/
theorem matrix_render_spec_witness :
    create_np_matrices ([] ++ [⟨6, 0, 42, 5, 1⟩]) 10 false =
      create_np_matrices [] 10 false ∧
    (create_np_matrices [] 10 false).dens 5 0 = 0 ∧
    (create_np_matrices ([] ++ [⟨1, 0, 40, 3, 2⟩]) 10 false).dens 0 0 = 3 :=
  ⟨(matrix_render_spec 10 false).2.1 [] ⟨6, 0, 42, 5, 1⟩ rfl rfl,
   ((matrix_render_spec 10 false).1 5 0).2.1,
   by
    have h := ((matrix_render_spec 10 false).2.2 [] ⟨1, 0, 40, 3, 2⟩
      (by simp)).2.1
    simpa [clampSection] using h⟩

/-- CLAIM C10. Colliding writes are resolved by iteration order: if a row r
hits cell (i, j) and no later row hits (i, j), the rendered cell holds
exactly the values of r (its truncated average velocity, its count, its
average acceleration) regardless of earlier rows: the last writer
overwrites and nothing is aggregated. Moreover a section id equal to
numSections and one equal to numSections - 1 are clamped to the same
column, so such records in the same lane collide. -/
theorem matrix_last_write_wins (nS : ℤ) (wr : Bool) :
    (∀ (pre post : List MatRow) (r : MatRow) (i j : ℤ),
      hitsCell nS wr r i j →
      (∀ x ∈ post, ¬ hitsCell nS wr x i j) →
      (create_np_matrices (pre ++ r :: post) nS wr).vel i j = intTrunc r.avgVel ∧
      (create_np_matrices (pre ++ r :: post) nS wr).dens i j = (r.count : ℚ) ∧
      (create_np_matrices (pre ++ r :: post) nS wr).acc i j = r.avgAcc) ∧
    (∀ n : ℤ, clampSection n n = clampSection n (n - 1)) := by
  constructor
  · intro pre post r i j hhit hpost
    unfold create_np_matrices
    rw [List.foldl_append, List.foldl_cons]
    have huntouched := renderStep_untouched nS wr post i j
      (renderStep nS wr (pre.foldl (renderStep nS wr) initMatrices) r) hpost
    have hwrite := renderStep_write nS wr
      (pre.foldl (renderStep nS wr) initMatrices) r hhit.1
    rw [hhit.2.1, hhit.2.2] at hwrite
    exact ⟨huntouched.1.trans hwrite.1, huntouched.2.1.trans hwrite.2.1,
      huntouched.2.2.trans hwrite.2.2⟩
  · intro n
    unfold clampSection
    rw [if_pos rfl, if_neg (by omega)]

/-- Witness for matrix_last_write_wins: two lane-1 records, one with
section 10 = numSections (clamped to 9) and one with section 9, collide in
column 9; the one iterated last (count 7) determines the density cell,
which is 7, not the combined 10. -/
theorem matrix_last_write_wins_witness :
    (create_np_matrices [⟨1, 10, 40, 3, 1⟩, ⟨1, 9, 50, 7, 2⟩] 10 true).dens
        0 9 = 7 ∧
    clampSection 10 10 = clampSection 10 9 :=
  ⟨((matrix_last_write_wins 10 true).1 [⟨1, 10, 40, 3, 1⟩] []
      ⟨1, 9, 50, 7, 2⟩ 0 9 (by refine ⟨by simp, by decide, by decide⟩)
      (by simp)).2.1,
   (matrix_last_write_wins 10 true).2 10⟩

/-! Configuration failure behaviour. The source has no ConfigError type and
performs no validation of numSections, bucket width or numLanes anywhere:
the only failure a bad configuration can raise before processing is the
Python ZeroDivisionError from max_dist // num_section_splits when the split
count is exactly zero. A negative split count produces a negative width and
aggregation proceeds; a zero width makes the Spark division produce NULL
section ids and aggregation also proceeds. -/

/-- CLAIM C9 (corrected part). Counterexample to the claim as stated: with
numSections = -10 (which is <= 0 and also makes the bucket width negative)
nothing fails fast and no ConfigError exists: the width computes to -100,
the distance 150 is assigned section -1, and the fine aggregation runs to
completion on a record, producing a result row. -/
theorem config_no_failfast_counterexample :
    bucketWidth 1000 (-10) = Except.ok (-100) ∧
    assignSection (-100) 150 = some (-1) ∧
    section_agg 1000 (-10) [⟨0, 1, 50, 0, 150⟩] ⟨0, some (-1), 1⟩ =
      Except.ok (some ⟨50, 0, 1⟩) := by
  have hsec : assignSection (-100) 150 = some (-1) := by
    norm_num [assignSection, intTrunc, roundHalfUp]
  refine ⟨rfl, hsec, ?_⟩
  have hgrp : fineGroup (-100) [⟨0, 1, 50, 0, 150⟩] ⟨0, some (-1), 1⟩ =
      [⟨0, 1, 50, 0, 150⟩] := by
    simp [fineGroup, fineKeyOf, hsec, List.filter]
  unfold section_agg
  rw [show bucketWidth 1000 (-10) = Except.ok (-100) from rfl]
  show Except.ok (finalizeFine (accOf (fineGroup (-100)
    [⟨0, 1, 50, 0, 150⟩] ⟨0, some (-1), 1⟩))) = _
  rw [hgrp]
  norm_num [accOf, foldPoint, finalizeFine, roundTo, roundHalfUp]

/-- CLAIM C9 (amended). The source has no ConfigError and no fail-fast
validation: a zero numSections raises ZeroDivisionError at the bucket-width
computation; every nonzero numSections (including negative ones) yields a
width (the Python floor quotient) and the fine aggregation then returns a
result rather than failing; a zero width is not rejected either, the Spark
division by the zero literal merely yields NULL section ids. -/
theorem config_error_behaviour :
    (∀ m : ℤ, bucketWidth m 0 = Except.error ()) ∧
    (∀ m n : ℤ, n ≠ 0 → bucketWidth m n = Except.ok (Int.fdiv m n)) ∧
    (∀ d : ℚ, assignSection 0 d = none) ∧
    (∀ (m n : ℤ) (pts : List TrajPoint) (k : FineKey), n ≠ 0 →
      ∃ res, section_agg m n pts k = Except.ok res) := by
  refine ⟨fun m => ?_, fun m n hn => ?_, fun d => ?_, fun m n pts k hn => ?_⟩
  · unfold bucketWidth
    rw [if_pos rfl]
  · unfold bucketWidth
    rw [if_neg hn]
  · unfold assignSection
    rw [if_pos rfl]
  · unfold section_agg bucketWidth
    rw [if_neg hn]
    exact ⟨_, rfl⟩

/-- Witness for config_error_behaviour: concrete degenerate configurations;
numSections 0 raises, numSections -10 and a zero width both proceed. -/
theorem config_error_behaviour_witness :
    bucketWidth 1000 0 = Except.error () ∧
    bucketWidth 1000 (-10) = Except.ok (Int.fdiv 1000 (-10)) ∧
    assignSection 0 150 = none ∧
    ∃ res, section_agg 1000 (-10) [] ⟨0, none, 1⟩ = Except.ok res :=
  ⟨config_error_behaviour.1 1000,
   config_error_behaviour.2.1 1000 (-10) (by decide),
   config_error_behaviour.2.2.1 150,
   config_error_behaviour.2.2.2 1000 (-10) [] ⟨0, none, 1⟩ (by decide)⟩

/-! Streaming path (FirstWatermarkAggregator, src/realtime_aggregator_1.py).
The query groups by an event-time tumbling window of timewindow seconds
with a watermark of the same duration (timewindow_agg, lines 78-90) and is
written to the Kafka sink with outputMode update (init_job, line 156).
Under update mode the runtime emits, at the end of every micro-batch
trigger, the current aggregate row of every group updated in that trigger;
a window can therefore be published several times, once per trigger that
changes it. The watermark only bounds lateness and state retention: rows
whose window the watermark has passed are dropped, and the state of such
windows is evicted at the end of the batch. The embedding models this
micro-batch semantics explicitly: a running maximum observed event time
(the watermark is that maximum minus the delay, recomputed at the end of
each batch, so a batch is filtered with the watermark of the previous
batches), per-window (sum, count) accumulators, and per-trigger output
lists of finalized rows ROUND(AVG, 1). -/

/-- Upper edge of a window: event times t with Int.fdiv t windowMs = wid
lie in [wid * windowMs, (wid + 1) * windowMs). -/
def winEnd (windowMs wid : ℤ) : ℤ := (wid + 1) * windowMs

/-- Fold a velocity into the accumulator of window wid, creating the
accumulator on the first point for that window. -/
def insertPoint : List (ℤ × ℚ × ℕ) → ℤ → ℚ → List (ℤ × ℚ × ℕ)
  | [], wid, v => [(wid, v, 1)]
  | e :: rest, wid, v =>
    if e.1 = wid then (wid, e.2.1 + v, e.2.2 + 1) :: rest
    else e :: insertPoint rest wid v

/-- Advance the running maximum observed event time; it never moves
backward. -/
def maxUpd (m : Option ℤ) (t : ℤ) : Option ℤ :=
  match m with
  | none => some t
  | some s => some (max s t)

theorem insertPoint_mem (l : List (ℤ × ℚ × ℕ)) (wid : ℤ) (v : ℚ) :
    ∀ e ∈ insertPoint l wid v, e.1 = wid ∨ e ∈ l := by
  induction l with
  | nil =>
    intro e he
    simp [insertPoint] at he
    left
    rw [he]
  | cons x rest ih =>
    intro e he
    by_cases hx : x.1 = wid
    · rw [insertPoint, if_pos hx] at he
      rcases List.mem_cons.mp he with h1 | h1
      · left
        rw [h1]
      · right
        exact List.mem_cons_of_mem x h1
    · rw [insertPoint, if_neg hx] at he
      rcases List.mem_cons.mp he with h1 | h1
      · right
        rw [h1]
        exact List.mem_cons_self x rest
      · rcases ih e h1 with h2 | h2
        · left
          exact h2
        · right
          exact List.mem_cons_of_mem x h2

theorem insertPoint_keys (l : List (ℤ × ℚ × ℕ)) (wid : ℤ) (v : ℚ) :
    (insertPoint l wid v).map Prod.fst =
      if wid ∈ l.map Prod.fst then l.map Prod.fst
      else l.map Prod.fst ++ [wid] := by
  induction l with
  | nil => simp [insertPoint]
  | cons x rest ih =>
    by_cases hx : x.1 = wid
    · rw [insertPoint, if_pos hx]
      have hmem : wid ∈ (x :: rest).map Prod.fst := by
        rw [List.map_cons, hx]
        exact List.mem_cons_self wid _
      rw [if_pos hmem]
      simp [hx]
    · rw [insertPoint, if_neg hx]
      have hiff : wid ∈ (x :: rest).map Prod.fst ↔ wid ∈ rest.map Prod.fst := by
        rw [List.map_cons, List.mem_cons]
        constructor
        · intro h
          rcases h with h | h
          · exact absurd h.symm hx
          · exact h
        · exact Or.inr
      by_cases hr : wid ∈ rest.map Prod.fst
      · rw [if_pos (hiff.mpr hr), List.map_cons, ih, if_pos hr, List.map_cons]
      · rw [if_neg (fun hc => hr (hiff.mp hc)), List.map_cons, ih, if_neg hr,
          List.map_cons, List.cons_append]

theorem insertPoint_keys_nodup (l : List (ℤ × ℚ × ℕ)) (wid : ℤ) (v : ℚ)
    (h : (l.map Prod.fst).Nodup) :
    ((insertPoint l wid v).map Prod.fst).Nodup := by
  rw [insertPoint_keys]
  by_cases hmem : wid ∈ l.map Prod.fst
  · rw [if_pos hmem]
    exact h
  · rw [if_neg hmem]
    refine List.Nodup.append h (List.nodup_singleton wid) ?_
    intro a ha hb
    rw [List.mem_singleton] at hb
    exact hmem (hb ▸ ha)

theorem nodup_fst_inj {α β : Type} (l : List (α × β))
    (h : (l.map Prod.fst).Nodup) :
    ∀ a ∈ l, ∀ b ∈ l, a.1 = b.1 → a = b := by
  induction l with
  | nil =>
    intro a ha
    exact absurd ha (List.not_mem_nil a)
  | cons x rest ih =>
    rw [List.map_cons, List.nodup_cons] at h
    intro a ha b hb hab
    rcases List.mem_cons.mp ha with h1 | h1 <;>
      rcases List.mem_cons.mp hb with h2 | h2
    · rw [h1, h2]
    · exfalso
      apply h.1
      rw [← h1, hab]
      exact List.mem_map_of_mem Prod.fst h2
    · exfalso
      apply h.1
      rw [← h2, ← hab]
      exact List.mem_map_of_mem Prod.fst h1
    · exact ih h.2 a h1 b h2 hab

/-- A window is late for the current watermark (maximum observed event
time minus the watermark delay, here equal to the window size): its rows
are dropped and its state is evicted. Before any event is observed there
is no watermark and nothing is late. -/
def lateFor (windowMs delay : ℤ) (m : Option ℤ) (wid : ℤ) : Bool :=
  match m with
  | none => false
  | some t => decide (winEnd windowMs wid ≤ t - delay)

/-- Running maximum observed event time over one micro-batch. -/
def batchMax (m : Option ℤ) (batch : List (ℤ × ℚ)) : Option ℤ :=
  batch.foldl (fun a p => maxUpd a p.1) m

/-- Finalize an accumulator row for the sink: ROUND(AVG(avg(v_Vel)), 1). -/
def finalizeRow (e : ℤ × ℚ × ℕ) : ℤ × ℚ :=
  (e.1, roundTo 1 (e.2.1 / (e.2.2 : ℚ)))

/-- Streaming aggregation state: running maximum observed event time (none
before the first point) and the per-window (sum, count) accumulators. -/
structure UpdState where
  maxT : Option ℤ
  acc : List (ℤ × ℚ × ℕ)

/-- Ingest the rows of one micro-batch against the watermark of the
previous batches: a row whose window is late is dropped; otherwise it is
folded into its window accumulator and the window id is recorded as
changed in this trigger. -/
def ingest (windowMs delay : ℤ) (m : Option ℤ) :
    List (ℤ × ℚ × ℕ) → List ℤ → List (ℤ × ℚ) → List (ℤ × ℚ × ℕ) × List ℤ
  | acc, changed, [] => (acc, changed)
  | acc, changed, p :: rest =>
    if lateFor windowMs delay m (Int.fdiv p.1 windowMs) then
      ingest windowMs delay m acc changed rest
    else
      ingest windowMs delay m (insertPoint acc (Int.fdiv p.1 windowMs) p.2)
        (Int.fdiv p.1 windowMs :: changed) rest

/-- One micro-batch trigger in outputMode update: ingest the batch, emit
the current aggregate of every window changed in this trigger, advance the
watermark from the batch maximum event time, and evict the state of the
windows the new watermark has passed. -/
def stepBatch (windowMs delay : ℤ) (s : UpdState) (batch : List (ℤ × ℚ)) :
    UpdState × List (ℤ × ℚ) :=
  let r := ingest windowMs delay s.maxT s.acc [] batch
  let out := (r.1.filter (fun e => decide (e.1 ∈ r.2))).map finalizeRow
  let m2 := batchMax s.maxT batch
  ⟨⟨m2, r.1.filter (fun e => !lateFor windowMs delay m2 e.1)⟩, out⟩

/-- Run the streaming query over a sequence of micro-batches, collecting
the rows published to the sink per trigger. -/
def runBatches (windowMs delay : ℤ) :
    UpdState → List (List (ℤ × ℚ)) → UpdState × List (List (ℤ × ℚ))
  | s, [] => (s, [])
  | s, b :: rest =>
    let r1 := stepBatch windowMs delay s b
    let r2 := runBatches windowMs delay r1.1 rest
    (r2.1, r1.2 :: r2.2)

/-- The state before the first trigger. -/
def initUpd : UpdState := ⟨none, []⟩

theorem runBatches_nil (windowMs delay : ℤ) (s : UpdState) :
    runBatches windowMs delay s [] = (s, []) := rfl

theorem runBatches_cons (windowMs delay : ℤ) (s : UpdState)
    (b : List (ℤ × ℚ)) (rest : List (List (ℤ × ℚ))) :
    runBatches windowMs delay s (b :: rest) =
      ((runBatches windowMs delay (stepBatch windowMs delay s b).1 rest).1,
       (stepBatch windowMs delay s b).2 ::
         (runBatches windowMs delay (stepBatch windowMs delay s b).1 rest).2) :=
  rfl

theorem stepBatch_out_eq (windowMs delay : ℤ) (s : UpdState)
    (batch : List (ℤ × ℚ)) :
    (stepBatch windowMs delay s batch).2 =
      ((ingest windowMs delay s.maxT s.acc [] batch).1.filter
        (fun e => decide (e.1 ∈ (ingest windowMs delay s.maxT s.acc [] batch).2))).map
        finalizeRow := rfl

theorem stepBatch_acc_eq (windowMs delay : ℤ) (s : UpdState)
    (batch : List (ℤ × ℚ)) :
    (stepBatch windowMs delay s batch).1.acc =
      (ingest windowMs delay s.maxT s.acc [] batch).1.filter
        (fun e => !lateFor windowMs delay (batchMax s.maxT batch) e.1) := rfl

theorem stepBatch_maxT_eq (windowMs delay : ℤ) (s : UpdState)
    (batch : List (ℤ × ℚ)) :
    (stepBatch windowMs delay s batch).1.maxT = batchMax s.maxT batch := rfl

theorem lateFor_maxUpd (windowMs delay : ℤ) (m : Option ℤ) (t wid : ℤ)
    (h : lateFor windowMs delay m wid = true) :
    lateFor windowMs delay (maxUpd m t) wid = true := by
  cases m with
  | none => simp [lateFor] at h
  | some s =>
    simp [lateFor, maxUpd] at h ⊢
    have hs := le_max_left s t
    omega

theorem lateFor_batchMax (windowMs delay : ℤ) (batch : List (ℤ × ℚ)) :
    ∀ (m : Option ℤ) (wid : ℤ), lateFor windowMs delay m wid = true →
      lateFor windowMs delay (batchMax m batch) wid = true := by
  induction batch with
  | nil =>
    intro m wid h
    exact h
  | cons p rest ih =>
    intro m wid h
    unfold batchMax
    rw [List.foldl_cons]
    exact ih (maxUpd m p.1) wid (lateFor_maxUpd windowMs delay m p.1 wid h)

theorem ingest_changed (windowMs delay : ℤ) (m : Option ℤ) (wid : ℤ)
    (hl : lateFor windowMs delay m wid = true) :
    ∀ (batch : List (ℤ × ℚ)) (acc : List (ℤ × ℚ × ℕ)) (changed : List ℤ),
      wid ∈ (ingest windowMs delay m acc changed batch).2 → wid ∈ changed := by
  intro batch
  induction batch with
  | nil =>
    intro acc changed h
    exact h
  | cons p rest ih =>
    intro acc changed h
    rw [ingest] at h
    by_cases hc : lateFor windowMs delay m (Int.fdiv p.1 windowMs) = true
    · rw [if_pos hc] at h
      exact ih acc changed h
    · rw [if_neg hc] at h
      have h2 := ih (insertPoint acc (Int.fdiv p.1 windowMs) p.2)
        (Int.fdiv p.1 windowMs :: changed) h
      rcases List.mem_cons.mp h2 with he | he
      · exfalso
        rw [he] at hl
        exact hc hl
      · exact he

theorem ingest_keys_nodup (windowMs delay : ℤ) (m : Option ℤ) :
    ∀ (batch : List (ℤ × ℚ)) (acc : List (ℤ × ℚ × ℕ)) (changed : List ℤ),
      (acc.map Prod.fst).Nodup →
      (((ingest windowMs delay m acc changed batch).1).map Prod.fst).Nodup := by
  intro batch
  induction batch with
  | nil =>
    intro acc changed h
    exact h
  | cons p rest ih =>
    intro acc changed h
    rw [ingest]
    by_cases hc : lateFor windowMs delay m (Int.fdiv p.1 windowMs) = true
    · rw [if_pos hc]
      exact ih acc changed h
    · rw [if_neg hc]
      exact ih _ _ (insertPoint_keys_nodup acc (Int.fdiv p.1 windowMs) p.2 h)

/-- CLAIM C2 (corrected part). Counterexample to the claim as stated: with
a 10 ms window and equal watermark delay, the points (5, 50) and (7, 60)
arriving in two successive micro-batch triggers both land in window 0 and,
under outputMode update, window 0 is published in both triggers: first
with average 50, then again with the revised average 55. The same windowId
reaches the sink twice and its published statistics change after the first
emission. -/
theorem stream_update_counterexample :
    (runBatches 10 10 initUpd [[(5, 50)], [(7, 60)]]).2 =
      [[(0, 50)], [(0, 55)]] ∧
    ((runBatches 10 10 initUpd [[(5, 50)], [(7, 60)]]).2).flatten.map
      Prod.fst = [0, 0] ∧
    ¬ ([(0 : ℤ), 0].Nodup) := by
  have hrfl : (runBatches 10 10 initUpd [[(5, 50)], [(7, 60)]]).2 =
      [[(0, roundTo 1 ((50 : ℚ) / ((1 : ℕ) : ℚ)))],
       [(0, roundTo 1 (((50 : ℚ) + 60) / ((1 + 1 : ℕ) : ℚ)))]] := rfl
  have hv1 : roundTo 1 ((50 : ℚ) / ((1 : ℕ) : ℚ)) = 50 := by
    norm_num [roundTo, roundHalfUp]
  have hv2 : roundTo 1 (((50 : ℚ) + 60) / ((1 + 1 : ℕ) : ℚ)) = 55 := by
    norm_num [roundTo, roundHalfUp]
  refine ⟨?_, ?_, by decide⟩
  · rw [hrfl, hv1, hv2]
  · rw [hrfl]
    rfl

/-- CLAIM C2 (amended). Under outputMode update, a window is published
once per trigger in which its aggregate changes, so a windowId may be
emitted several times with evolving statistics while it is open; what does
hold is: within any single trigger each windowId is published at most
once, and once the watermark has passed a window (its end is at or before
the maximum observed event time minus the delay), no later trigger
publishes any row for that windowId, so its statistics are final. -/
theorem stream_update_mode (windowMs delay : ℤ) :
    (∀ batches : List (List (ℤ × ℚ)),
      ∀ out ∈ (runBatches windowMs delay initUpd batches).2,
        (out.map Prod.fst).Nodup) ∧
    (∀ (s : UpdState) (wid : ℤ),
      lateFor windowMs delay s.maxT wid = true →
      ∀ batches : List (List (ℤ × ℚ)),
        ∀ out ∈ (runBatches windowMs delay s batches).2,
          ∀ v : ℚ, (wid, v) ∉ out) := by
  constructor
  · have hgen : ∀ (batches : List (List (ℤ × ℚ))) (s : UpdState),
        (s.acc.map Prod.fst).Nodup →
        ∀ out ∈ (runBatches windowMs delay s batches).2,
          (out.map Prod.fst).Nodup := by
      intro batches
      induction batches with
      | nil =>
        intro s hs out hout
        rw [runBatches_nil] at hout
        exact absurd hout (List.not_mem_nil out)
      | cons b rest ih =>
        intro s hs out hout
        have hing : (((ingest windowMs delay s.maxT s.acc [] b).1).map
            Prod.fst).Nodup :=
          ingest_keys_nodup windowMs delay s.maxT b s.acc [] hs
        rw [runBatches_cons] at hout
        rcases List.mem_cons.mp hout with hout1 | hout1
        · rw [hout1, stepBatch_out_eq]
          rw [List.map_map]
          exact List.Nodup.sublist
            ((List.filter_sublist _).map Prod.fst) hing
        · refine ih (stepBatch windowMs delay s b).1 ?_ out hout1
          rw [stepBatch_acc_eq]
          exact List.Nodup.sublist
            ((List.filter_sublist _).map Prod.fst) hing
    intro batches
    exact hgen batches initUpd (by simp [initUpd])
  · intro s wid hlate batches
    induction batches generalizing s with
    | nil =>
      intro out hout
      rw [runBatches_nil] at hout
      exact absurd hout (List.not_mem_nil out)
    | cons b rest ih =>
      intro out hout v hv
      rw [runBatches_cons] at hout
      rcases List.mem_cons.mp hout with hout1 | hout1
      · rw [hout1, stepBatch_out_eq] at hv
        obtain ⟨e, he, hfe⟩ := List.mem_map.mp hv
        have hchanged : e.1 ∈ (ingest windowMs delay s.maxT s.acc [] b).2 := by
          have := (List.mem_filter.mp he).2
          simpa using this
        have hewid : e.1 = wid := by
          have : (finalizeRow e).1 = wid := by
            rw [hfe]
          simpa [finalizeRow] using this
        rw [hewid] at hchanged
        have := ingest_changed windowMs delay s.maxT wid hlate b s.acc []
          hchanged
        exact absurd this (List.not_mem_nil wid)
      · have hlate2 : lateFor windowMs delay
            (stepBatch windowMs delay s b).1.maxT wid = true := by
          rw [stepBatch_maxT_eq]
          exact lateFor_batchMax windowMs delay b s.maxT wid hlate
        exact ih (stepBatch windowMs delay s b).1 hlate2 out hout1 v hv

/-- Witness for stream_update_mode: in the concrete double-emission run
each single trigger publishes window 0 only once; and from a state whose
watermark has already passed window 0 (maximum observed event time 25 with
delay 10, so watermark 15 at or past the window end 10), a later trigger
carrying a point for window 0 publishes nothing for it. -/
theorem stream_update_mode_witness :
    (∀ out ∈ (runBatches 10 10 initUpd [[(5, 50)], [(7, 60)]]).2,
      (out.map Prod.fst).Nodup) ∧
    (∀ out ∈ (runBatches 10 10 ⟨some 25, []⟩ [[(5, 99)]]).2,
      ∀ v : ℚ, ((0 : ℤ), v) ∉ out) :=
  ⟨(stream_update_mode 10 10).1 [[(5, 50)], [(7, 60)]],
   fun out hout v =>
     (stream_update_mode 10 10).2 ⟨some 25, []⟩ 0 (by decide) [[(5, 99)]]
       out hout v⟩
